import Mathlib

/-!
Verification of the openlr-dereferencer decoding core.

This file gives a shallow embedding, in Lean 4, of the parts of the
`openlr_dereferencer` Python package that the checked claims are about:

* call-shape facts of the matching pipeline (`decoding/candidate_functions.py`,
  `decoding/candidate.py`, `maps/a_star/__init__.py`) — constructor field lists,
  call-site arities and keyword lists, taken literally from the source;
* the bearing scoring chain (`decoding/scoring.py`): `angle_sector`,
  `angle_sector_difference`, `score_angle_sector_differences`,
  `angle_difference`, `score_angle_difference`, `score_bearing`;
* node-validity classification (`is_valid_node` / `is_invalid_node` from
  `decoding/candidate_functions.py`);
* configuration persistence (`decoding/configuration.py`);
* the route algebra (`decoding/routes.py`), the offset trimmer
  (`decoding/tools.py`), the point-along-line walk
  (`decoding/point_locations.py`);
* the candidate-pair router and recursive tail matcher
  (`decoding/candidate_functions.py`, `decoding/line_decoding.py`);
* the A* search (`maps/a_star/__init__.py`);
* the `decode` dispatcher (`decoding/__init__.py`).

Python floats are modelled as rationals (`ℚ`); Python exceptions are modelled
with `Except` / explicit result types; geodesic computations (the wgs84 /
equal-area kernels) are taken as oracle parameters, since the claims under
consideration never depend on their internals, only on how their results are
consumed.
-/

namespace OpenLR

/-- Truncation toward zero on rationals: the behaviour of Python's `int()`
applied to a float. -/
def pyInt (q : ℚ) : ℤ :=
  if q < 0 then ⌈q⌉ else ⌊q⌋

/-- Python's `%` on floats with a positive modulus: `x % m = x - m * floor (x / m)`,
the result carrying the sign of the modulus. -/
def pyFmod (x m : ℚ) : ℚ :=
  x - m * ⌊x / m⌋

/-! ## Call shapes of the matching pipeline

`decoding/routes.py` defines `PointOnLine` as a `NamedTuple` with exactly two
tuple fields, `line` and `relative_offset`; `decoding/candidate.py` derives
`Candidate` from it adding only the class attribute `score` (no tuple field).
`maps/a_star/__init__.py` defines `shortest_path(start, end, linefilter,
maxlen)`.  The call sites under scrutiny live in
`decoding/candidate_functions.py`: `make_candidate` constructs
`Candidate(line, reloff, config.equal_area)` (three positional arguments) and
`get_candidate_route` invokes `shortest_path(start.line.end_node,
dest.line.start_node, linefilter, maxlen=maxlen, equal_area=equal_area)`.  -/

/-- Tuple fields of `PointOnLine` in `decoding/routes.py`. -/
def pointOnLineTupleFields : List String :=
  ["line", "relative_offset"]

/-- Tuple fields of `Candidate` (`decoding/candidate.py`): it subclasses
`PointOnLine` and adds only a plain class attribute, so the tuple fields are
those of `PointOnLine`. -/
def candidateTupleFields : List String :=
  pointOnLineTupleFields

/-- Number of positional arguments in the construction
`Candidate(line, reloff, config.equal_area)` at
`decoding/candidate_functions.py` line 71. -/
def makeCandidateCallArgCount : Nat := 3

/-- Parameter names of `shortest_path` in `maps/a_star/__init__.py`. -/
def shortestPathParams : List String :=
  ["start", "end", "linefilter", "maxlen"]

/-- Keyword arguments passed to `shortest_path` by `get_candidate_route`
(`decoding/candidate_functions.py` lines 169–175); the first three arguments
are positional. -/
def getCandidateRouteKwargs : List String :=
  ["maxlen", "equal_area"]

/-- Count of positional arguments passed to `shortest_path` by
`get_candidate_route`. -/
def getCandidateRoutePositionalCount : Nat := 3

/-- A call to a plain `NamedTuple` constructor without defaulted tuple fields
is well-formed exactly when the positional argument count equals the field
count. -/
def tupleCallWellFormed (fields : List String) (argCount : Nat) : Bool :=
  argCount = fields.length

/-- A Python call with positional arguments followed by keyword arguments is
accepted by a function with positional-or-keyword parameters (and no
`**kwargs`) only if each keyword names a parameter not already bound
positionally. -/
def callAccepted (params : List String) (positional : Nat) (kwargs : List String) : Bool :=
  positional ≤ params.length &&
    kwargs.all (fun k => (params.drop positional).contains k)

/-! ## Bearing scoring (`decoding/scoring.py`) -/

/-- `angle_sector` from `decoding/scoring.py`: maps an angle in degrees to one
of 32 sectors of 11.25°.  The Python source adds 360 once when the angle is
negative, truncates toward zero with `int(...)`, and reduces mod 32. -/
def angle_sector (angle : ℚ) : ℤ :=
  let angle := if angle < 0 then angle + 360 else angle
  (pyInt (angle / (360 / 32))) % 32

/-- `angle_sector_difference` from `decoding/scoring.py`: circular distance of
the sectors containing the two angles, folded into `[0, 16]`. -/
def angle_sector_difference (angle1 angle2 : ℚ) : ℤ :=
  let sector_diff := |angle_sector angle1 - angle_sector angle2|
  if sector_diff > 16 then 32 - sector_diff else sector_diff

/-- `score_angle_sector_differences` from `decoding/scoring.py`. -/
def score_angle_sector_differences (angle1 angle2 : ℚ) : ℚ :=
  1 - (angle_sector_difference angle1 angle2 : ℚ) / 16

/-- `angle_difference` from `decoding/scoring.py`:
`(abs(angle1 - angle2) + 180) % 360 - 180`, in degrees. -/
def angle_difference (angle1 angle2 : ℚ) : ℚ :=
  pyFmod (|angle1 - angle2| + 180) 360 - 180

/-- `score_angle_difference` from `decoding/scoring.py` (defined there but not
used by `score_bearing`). -/
def score_angle_difference (angle1 angle2 : ℚ) : ℚ :=
  1 - |angle_difference angle1 angle2| / 180

/-- A map edge.  `line_id`, node ids, the FRC class and the length in meters
are the attributes of the abstract `Line` of `maps/abstract.py` that the
decoding code under verification reads. -/
structure Line where
  line_id : ℕ
  start_node : ℕ
  end_node : ℕ
  length : ℚ
  frc : ℕ
deriving DecidableEq, Repr

/-- `PointOnLine` from `decoding/routes.py`: an edge plus a fractional offset. -/
structure PointOnLine where
  line : Line
  relative_offset : ℚ
deriving DecidableEq, Repr

/-- `PointOnLine.distance_from_start`. -/
def PointOnLine.distance_from_start (p : PointOnLine) : ℚ :=
  p.relative_offset * p.line.length

/-- `PointOnLine.distance_to_end`. -/
def PointOnLine.distance_to_end (p : PointOnLine) : ℚ :=
  (1 - p.relative_offset) * p.line.length

/-- The fields of an LRP read by the matcher and the bearing scorer:
expected bearing, distance to next point, lowest FRC to next point. -/
structure LRP where
  bear : ℚ
  dnp : ℚ
  lfrcnp : ℕ
deriving DecidableEq, Repr

/-- `score_bearing` from `decoding/scoring.py`.  The geodesic bearing
computation `compute_bearing` (`decoding/path_math.py`) is taken as an oracle
parameter `computeBearing`; the source feeds its result into
`score_angle_sector_differences` together with the LRP's expected bearing. -/
def score_bearing (computeBearing : LRP → PointOnLine → Bool → ℚ → ℚ)
    (wanted : LRP) (actual : PointOnLine) (is_last_lrp : Bool) (bear_dist : ℚ) : ℚ :=
  let bear := computeBearing wanted actual is_last_lrp bear_dist
  score_angle_sector_differences wanted.bear bear

/-! ## Node validity (`decoding/candidate_functions.py`) -/

/-- The `(start_node, end_node)` pair of an adjacent line, as yielded by the
reader's `incoming_line_nodes()` / `outgoing_line_nodes()`; nodes are
identified by their ids. -/
structure LineNode where
  start_node : ℕ
  end_node : ℕ
deriving DecidableEq, Repr

/-- A node together with the adjacency lists that `is_invalid_node` reads. -/
structure NodeAdj where
  node_id : ℕ
  incoming_line_nodes : List LineNode
  outgoing_line_nodes : List LineNode
deriving DecidableEq, Repr

/-- Insert the two endpoint nodes of every line of a list into a set, in
source order (`unique_nodes.add(line.start_node); unique_nodes.add(line.end_node)`). -/
def addEndpoints (s : Finset ℕ) (lines : List LineNode) : Finset ℕ :=
  lines.foldl (fun s l => insert l.end_node (insert l.start_node s)) s

/-- `is_invalid_node` from `decoding/candidate_functions.py`.  Note that the
source iterates over `outgoing_line_nodes` in **both** of its two endpoint
loops; the translation preserves this. -/
def is_invalid_node (node : NodeAdj) : Bool :=
  let incoming_line_nodes := node.incoming_line_nodes
  let outgoing_line_nodes := node.outgoing_line_nodes
  if (incoming_line_nodes.length = 1 ∧ outgoing_line_nodes.length = 1) ∨
      (incoming_line_nodes.length = 2 ∧ outgoing_line_nodes.length = 2) then
    let unique_nodes : Finset ℕ := ∅
    let unique_nodes := addEndpoints unique_nodes outgoing_line_nodes
    let unique_nodes := addEndpoints unique_nodes outgoing_line_nodes
    unique_nodes.card = 3
  else
    false

/-- `is_valid_node` from `decoding/candidate_functions.py` (the `lru_cache`
memoisation is semantically transparent). -/
def is_valid_node (node : NodeAdj) : Bool :=
  ! is_invalid_node node

/-! ## Route algebra (`decoding/routes.py`) -/

/-- `Route` from `decoding/routes.py`: a start `PointOnLine`, the intermediate
lines, and an end `PointOnLine`.  The Python field `end` is a Lean keyword and
is rendered `endP`. -/
structure Route where
  start : PointOnLine
  path_inbetween : List Line
  endP : PointOnLine
deriving DecidableEq, Repr

/-- `path_length` from `maps/abstract.py`: sum of the line lengths. -/
def path_length (lines : List Line) : ℚ :=
  (lines.map Line.length).sum

/-- `Route.lines`: all lines taking part in the route.  Mirrors the source:
start with `[start.line]`, append each interior line whose id differs from the
current last, drop the last when it matches the end line's id, then append the
end line.  The accumulator is kept reversed so that the source's `result[-1]`
is the head. -/
def Route.lines (r : Route) : List Line :=
  let revResult := r.path_inbetween.foldl
    (fun res line =>
      match res with
      | [] => [line]
      | last :: _ => if line.line_id ≠ last.line_id then line :: res else res)
    [r.start.line]
  let revResult :=
    match revResult with
    | [] => []
    | last :: rest => if r.endP.line.line_id = last.line_id then rest else revResult
  (r.endP.line :: revResult).reverse

/-- `Route.length`: length of the line location part in meters. -/
def Route.length (r : Route) : ℚ :=
  let lines := r.lines
  let result := path_length lines
  let result :=
    if r.start.relative_offset > 0 then result - r.start.distance_from_start else result
  if r.endP.relative_offset < 1 then result - r.endP.distance_to_end else result

/-- `Route.absolute_start_offset`: offset on the starting line in meters. -/
def Route.absolute_start_offset (r : Route) : ℚ :=
  r.start.distance_from_start

/-- `Route.absolute_end_offset`: offset on the ending line in meters. -/
def Route.absolute_end_offset (r : Route) : ℚ :=
  r.endP.distance_to_end

/-! ## Candidate routing (`decoding/candidate_functions.py`) -/

/-- `Candidate` from `decoding/candidate.py`: a `PointOnLine` bundled with its
precomputed score. -/
structure Candidate extends PointOnLine where
  score : ℚ
deriving DecidableEq, Repr

/-- The outcome of the A* module as consumed by `get_candidate_route`: either
a path of lines or `LRPathNotFoundError`.  `get_candidate_route` is
parameterised over the search function `sp`, standing for
`shortest_path(start_node, end_node, linefilter, maxlen)`. -/
abbrev SPOracle :=
  ℕ → ℕ → (Line → Bool) → ℚ → Except Unit (List Line)

/-- `get_candidate_route` from `decoding/candidate_functions.py`: when both
candidates lie on a line with the same id, immediately returns the single-edge
route `Route(start, [], dest)`; otherwise runs the path search from
`start.line.end_node` to `dest.line.start_node` with the FRC line filter, and
converts `LRPathNotFoundError` into `none`. -/
def get_candidate_route (sp : SPOracle) (start dest : Candidate) (lfrc : ℕ)
    (maxlen : ℚ) : Option Route :=
  if start.line.line_id = dest.line.line_id then
    some ⟨start.toPointOnLine, [], dest.toPointOnLine⟩
  else
    let linefilter : Line → Bool := fun line => line.frc ≤ lfrc
    match sp start.line.end_node dest.line.start_node linefilter maxlen with
    | .ok path => some ⟨start.toPointOnLine, path, dest.toPointOnLine⟩
    | .error _ => none

/-- `handleCandidatePair` from `decoding/candidate_functions.py`: route the
pair, then reject the route when its length falls outside `[minlen, maxlen]`
(observer notifications are side effects and are not modelled). -/
def handleCandidatePair (sp : SPOracle) (c_from c_to : Candidate) (lowest_frc : ℕ)
    (minlen maxlen : ℚ) : Option Route :=
  match get_candidate_route sp c_from c_to lowest_frc maxlen with
  | none => none
  | some route =>
      let length := route.length
      if length < minlen ∨ length > maxlen then none else some route

/-! ## Offset trimmer (`decoding/tools.py`) -/

/-- The edge-dropping loop shared by both directions of
`remove_offsets` (`decoding/tools.py`): while the remaining offset is at least
the first edge's length, subtract that length and drop the edge; raise
`LRDecodeError` the moment the list becomes empty.  An initially empty list is
also an error (the source would fault indexing `lines[0]`; `Route.lines` is
never empty). -/
def drop_edges : ℚ → List Line → Except Unit (ℚ × List Line)
  | _, [] => .error ()
  | off, l :: rest =>
      if off ≥ l.length then
        match rest with
        | [] => .error ()
        | r :: rs => drop_edges (off - l.length) (r :: rs)
      else
        .ok (off, l :: rest)

/-- `remove_offsets` from `decoding/tools.py`: add the route's own absolute
offsets, drop whole edges from the front and from the back, then rebuild the
route on the surviving edges.  The back loop is the front loop on the reversed
list. -/
def remove_offsets (path : Route) (p_off n_off : ℚ) : Except Unit Route :=
  let lines := path.lines
  let remaining_poff := p_off + path.absolute_start_offset
  match drop_edges remaining_poff lines with
  | .error e => .error e
  | .ok (remaining_poff, lines) =>
    let remaining_noff := n_off + path.absolute_end_offset
    match drop_edges remaining_noff lines.reverse with
    | .error e => .error e
    | .ok (remaining_noff, revLines) =>
      match revLines.reverse with
      | [] => .error ()
      | start_line :: rest =>
        match rest.getLast? with
        | some end_line =>
            .ok ⟨⟨start_line, remaining_poff / start_line.length⟩,
                 rest.dropLast,
                 ⟨end_line, 1 - remaining_noff / end_line.length⟩⟩
        | none =>
            .ok ⟨⟨start_line, remaining_poff / start_line.length⟩,
                 [],
                 ⟨start_line, 1 - remaining_noff / start_line.length⟩⟩

/-! ## Point-along-line walk (`decoding/point_locations.py`) -/

/-- The interior-edge walk inside `point_along_linelocation`: consume meters
edge by edge; stop inside the first edge whose length is not exceeded
(strictly) by the leftover, otherwise return the remaining leftover. -/
def walkInterior : ℚ → List Line → (Line × ℚ) ⊕ ℚ
  | leftover, [] => .inr leftover
  | leftover, road :: rest =>
      if leftover > road.length then walkInterior (leftover - road.length) rest
      else .inl (road, leftover)

/-- `point_along_linelocation` from `decoding/point_locations.py`: step
`length` meters into the route and return the line plus a meter offset on it;
raise `LRDecodeError` when the path is exhausted. -/
def point_along_linelocation (route : Route) (length : ℚ) :
    Except Unit (Line × ℚ) :=
  let leftover_length := length - route.start.line.length * (1 - route.start.relative_offset)
  if leftover_length < 0 then
    .ok (route.start.line, route.start.line.length * route.start.relative_offset + length)
  else
    match walkInterior leftover_length route.path_inbetween with
    | .inl (road, leftover) => .ok (road, leftover)
    | .inr leftover =>
      let end_offset := route.endP.line.length * route.endP.relative_offset
      let leftover := leftover - end_offset
      if leftover < 0 then .ok (route.endP.line, end_offset)
      else .error ()

/-- The decoded point-along-line result (`decoding/point_locations.py`); side
of road and orientation are carried as opaque codes. -/
structure PointAlongLine where
  line : Line
  positive_offset : ℚ
  side : ℕ
  orientation : ℕ
deriving DecidableEq, Repr

/-- `decode_pointalongline` from `decoding/point_locations.py`, applied to the
already dereferenced and combined route (the candidate matching that produces
it is modelled separately): the absolute offset is the route length times the
reference's positive offset fraction, and side of road and orientation are
passed through from the reference. -/
def decode_pointalongline (path : Route) (poffs : ℚ) (sideOfRoad orientation : ℕ) :
    Except Unit PointAlongLine :=
  let absolute_offset := path.length * poffs
  match point_along_linelocation path absolute_offset with
  | .ok (line_object, line_offset) =>
      .ok ⟨line_object, line_offset, sideOfRoad, orientation⟩
  | .error e => .error e

/-! ## Configuration persistence (`decoding/configuration.py`) -/

/-- A JSON-representable configuration value, as stored by `save_config`:
a number, the FRC dictionary, the FOW stand-in matrix, or a boolean. -/
inductive CfgVal where
  | num (q : ℚ)
  | frcMap (m : List (ℕ × ℕ))
  | matrix (m : List (List ℚ))
  | flag (b : Bool)
deriving DecidableEq, Repr

/-- `Config` from `decoding/configuration.py`: all seventeen fields, in source
order.  Python ints are modelled as rationals alongside the floats. -/
structure Config where
  search_radius : ℚ
  max_dnp_deviation : ℚ
  tolerated_dnp_dev : ℚ
  min_score : ℚ
  tolerated_lfrc : List (ℕ × ℕ)
  frc_score_tolerance : ℚ
  candidate_threshold : ℚ
  max_bear_deviation : ℚ
  fow_weight : ℚ
  frc_weight : ℚ
  geo_weight : ℚ
  bear_weight : ℚ
  fow_standin_score : List (List ℚ)
  bear_dist : ℚ
  equal_area : Bool
  equal_area_srid : ℚ
  timeout : ℚ
deriving DecidableEq, Repr

/-- `DEFAULT_FOW_STAND_IN_SCORE` from `decoding/configuration.py`. -/
def DEFAULT_FOW_STAND_IN_SCORE : List (List ℚ) :=
  [[1/2, 1/2, 1/2, 1/2, 1/2, 1/2, 1/2, 1/2],
   [1/2, 1, 3/4, 0, 0, 0, 0, 0],
   [1/2, 3/4, 1, 3/4, 1/2, 0, 0, 0],
   [1/2, 0, 3/4, 1, 1/2, 1/2, 0, 0],
   [1/2, 0, 1/2, 1/2, 1, 1/2, 0, 0],
   [1/2, 0, 0, 1/2, 1/2, 1, 0, 0],
   [1/2, 0, 0, 0, 0, 0, 1, 0],
   [1/2, 0, 0, 0, 0, 0, 0, 1]]

/-- `DEFAULT_CONFIG = Config()`: the source's default field values. -/
def DEFAULT_CONFIG : Config where
  search_radius := 50
  max_dnp_deviation := 1/10
  tolerated_dnp_dev := 30
  min_score := 3/10
  tolerated_lfrc := [(0, 0), (1, 1), (2, 2), (3, 3), (4, 4), (5, 5), (6, 6), (7, 7)]
  frc_score_tolerance := 0
  candidate_threshold := 20
  max_bear_deviation := 45
  fow_weight := 1/4
  frc_weight := 1/4
  geo_weight := 1/4
  bear_weight := 1/4
  fow_standin_score := DEFAULT_FOW_STAND_IN_SCORE
  bear_dist := 20
  equal_area := false
  equal_area_srid := 2163
  timeout := 50000

/-- `save_config` with no destination (`decoding/configuration.py`):
`config._asdict()`, the ordered dictionary keyed by the tuple field names.
(The file and JSON-text destinations serialise exactly this dictionary.) -/
def save_config (config : Config) : List (String × CfgVal) :=
  [("search_radius", .num config.search_radius),
   ("max_dnp_deviation", .num config.max_dnp_deviation),
   ("tolerated_dnp_dev", .num config.tolerated_dnp_dev),
   ("min_score", .num config.min_score),
   ("tolerated_lfrc", .frcMap config.tolerated_lfrc),
   ("frc_score_tolerance", .num config.frc_score_tolerance),
   ("candidate_threshold", .num config.candidate_threshold),
   ("max_bear_deviation", .num config.max_bear_deviation),
   ("fow_weight", .num config.fow_weight),
   ("frc_weight", .num config.frc_weight),
   ("geo_weight", .num config.geo_weight),
   ("bear_weight", .num config.bear_weight),
   ("fow_standin_score", .matrix config.fow_standin_score),
   ("bear_dist", .num config.bear_dist),
   ("equal_area", .flag config.equal_area),
   ("equal_area_srid", .num config.equal_area_srid),
   ("timeout", .num config.timeout)]

/-- Python's `dict[key]`: the value, or a `KeyError` carrying the key. -/
def dictGetVal (d : List (String × CfgVal)) (key : String) : Except String CfgVal :=
  match d.lookup key with
  | some v => .ok v
  | none => .error key

/-- `load_config` applied to a dictionary (`decoding/configuration.py`): the
sixteen dictionary accesses, in the order the source's list literal evaluates
them, feeding `Config._make`.  The result is the argument list handed to
`_make` (the FRC key/value re-coercion on `tolerated_lfrc` is the identity on
the model).  A missing key is a `KeyError`. -/
def load_config (opened_source : List (String × CfgVal)) : Except String (List CfgVal) := do
  let v1 ← dictGetVal opened_source "search_radius"
  let v2 ← dictGetVal opened_source "max_dnp_deviation"
  let v3 ← dictGetVal opened_source "tolerated_dnp_dev"
  let v4 ← dictGetVal opened_source "min_score"
  let v5 ← dictGetVal opened_source "tolerated_lfrc"
  let v6 ← dictGetVal opened_source "candidate_threshold"
  let v7 ← dictGetVal opened_source "rel_candidate_threshold"
  let v8 ← dictGetVal opened_source "max_bear_deviation"
  let v9 ← dictGetVal opened_source "fow_weight"
  let v10 ← dictGetVal opened_source "frc_weight"
  let v11 ← dictGetVal opened_source "geo_weight"
  let v12 ← dictGetVal opened_source "bear_weight"
  let v13 ← dictGetVal opened_source "fow_standin_score"
  let v14 ← dictGetVal opened_source "bear_dist"
  let v15 ← dictGetVal opened_source "equal_area"
  let v16 ← dictGetVal opened_source "timeout"
  return [v1, v2, v3, v4, v5, v6, v7, v8, v9, v10, v11, v12, v13, v14, v15, v16]

/-- The seventeen field values of a `Config`, in tuple order — what the loaded
argument list would have to be for the round trip to restore the config. -/
def Config.tupleVals (config : Config) : List CfgVal :=
  (save_config config).map Prod.snd

/-! ## The decode dispatcher (`decoding/__init__.py`) -/

/-- A longitude/latitude pair (`openlr.Coordinates`). -/
structure Coordinates where
  lon : ℚ
  lat : ℚ
deriving DecidableEq, Repr

/-- The location-reference variants dispatched by `decode`; the payloads of
the variants whose decoding is delegated to the specialised decoders are kept
opaque. -/
inductive LocationReference where
  | lineRef (payload : ℕ)
  | pointAlongLineRef (payload : ℕ)
  | geoCoordinateRef (point : Coordinates)
  | poiWithAccessPointRef (payload : ℕ)
  | unknownRef (payload : ℕ)
deriving DecidableEq, Repr

/-- The possible results of `decode`. -/
inductive DecodeResult where
  | lineLocation (payload : ℕ)
  | coords (c : Coordinates)
  | pointAlong (payload : ℕ)
  | poi (payload : ℕ)
deriving DecidableEq, Repr

/-- `decode` from `decoding/__init__.py`: the `isinstance` dispatch chain.
The three non-trivial branches call the specialised decoders (passed here as
parameters `decodeLine`, `decodePointalongline`, `decodePoiWithAccesspoint`,
which in the source close over the reader, observer and config); the
geo-coordinate branch returns `reference.point` directly; anything else raises
`LRDecodeError`. -/
def decode (decodeLine : ℕ → Except Unit DecodeResult)
    (decodePointalongline : ℕ → Except Unit DecodeResult)
    (decodePoiWithAccesspoint : ℕ → Except Unit DecodeResult)
    (reference : LocationReference) : Except Unit DecodeResult :=
  match reference with
  | .lineRef p => decodeLine p
  | .pointAlongLineRef p => decodePointalongline p
  | .geoCoordinateRef point => .ok (.coords point)
  | .poiWithAccessPointRef p => decodePoiWithAccesspoint p
  | .unknownRef _ => .error ()

/-! ## The recursive tail matcher (`decoding/candidate_functions.py`,
`decoding/line_decoding.py`) -/

/-- The decoding error taxonomy (`decoding/error.py`).  In the source,
`LRTimeoutError`, `LRFirstLRPNoCandidatesError` and
`LRLastLRPNoCandidatesError` derive from `Exception` directly, **not** from
`LRDecodeError`. -/
inductive DecErr where
  | decodeError
  | timeoutError
  | firstNoCands
  | lastNoCands
deriving DecidableEq, Repr

/-- Which error kinds an `except LRDecodeError:` clause catches: only
`LRDecodeError` itself — the other three classes are not subclasses of it. -/
def isLRDecodeError : DecErr → Bool
  | .decodeError => true
  | _ => false

/-- The external collaborators `match_tail` uses: the A* search (through
`get_candidate_route`) and candidate nomination (`nominate_candidates`, which
wraps the map reader's spatial query, projection and scoring; its internals
are outside this claim's scope). -/
structure MatchEnv where
  sp : SPOracle
  nominate : LRP → Bool → List Candidate

/-- `config.tolerated_lfrc[key]` (the source's dict access; a missing key,
which would be a `KeyError`, is not modelled and yields 0). -/
def lfrcLookup (d : List (ℕ × ℕ)) (key : ℕ) : ℕ :=
  (d.lookup key).getD 0

/-- Cartesian product of the candidate lists, in `itertools.product` order. -/
def candidatePairs (candidates next_candidates : List Candidate) :
    List (Candidate × Candidate) :=
  candidates.flatMap (fun c => next_candidates.map (fun n => (c, n)))

/-- `pairs.sort(key=sum of scores, reverse=True)`: stable descending sort by
the pair's score sum. -/
def sortPairs (pairs : List (Candidate × Candidate)) : List (Candidate × Candidate) :=
  pairs.mergeSort (fun a b => a.1.score + a.2.score ≥ b.1.score + b.2.score)

/-- The `for c_from, c_to in pairs:` loop body of `match_tail`.  `recurse`
stands for the recursive `match_tail` call on the remaining tail with the
chosen candidate.  A `None` route means: continue with the next pair.  On the
last LRP a found route is returned alone; otherwise the recursive call's
`LRDecodeError` (and only that kind) is caught and the loop continues;
exhausting all pairs raises `LRDecodeError`. -/
def pairLoop (sp : SPOracle) (recurse : Candidate → Except DecErr (List Route))
    (last_lrp : Bool) (lfrc : ℕ) (minlen maxlen : ℚ) :
    List (Candidate × Candidate) → Except DecErr (List Route)
  | [] => .error .decodeError
  | (c_from, c_to) :: rest =>
      match handleCandidatePair sp c_from c_to lfrc minlen maxlen with
      | none => pairLoop sp recurse last_lrp lfrc minlen maxlen rest
      | some route =>
          if last_lrp then .ok [route]
          else
            match recurse c_to with
            | .ok routes => .ok (route :: routes)
            | .error e =>
                if isLRDecodeError e then
                  pairLoop sp recurse last_lrp lfrc minlen maxlen rest
                else
                  .error e

/-- `match_tail` from `decoding/candidate_functions.py`.  Wall-clock sampling
(`time.time() - start_time`) is modelled by the oracle `elapsed`, indexed by
the recursion depth at which the sample is taken.  The empty-tail case cannot
arise (the docstring guarantees at least one LRP; the source would fault on
`tail[0]`) and is rendered as a plain decode error. -/
def match_tail (env : MatchEnv) (config : Config) (elapsed : ℕ → ℚ) :
    ℕ → LRP → List Candidate → List LRP → Except DecErr (List Route)
  | depth, current, candidates, tail =>
    if elapsed depth > config.timeout then
      .error .timeoutError
    else
      match tail with
      | [] => .error .decodeError
      | next_lrp :: restTail =>
        let last_lrp := restTail.isEmpty
        let minlen := (1 - config.max_dnp_deviation) * current.dnp - config.tolerated_dnp_dev
        let maxlen := (1 + config.max_dnp_deviation) * current.dnp + config.tolerated_dnp_dev
        let lfrc := lfrcLookup config.tolerated_lfrc current.lfrcnp
        let next_candidates := env.nominate next_lrp last_lrp
        if last_lrp ∧ next_candidates = [] then
          .error .lastNoCands
        else
          let pairs := sortPairs (candidatePairs candidates next_candidates)
          pairLoop env.sp
            (fun c_to => match_tail env config elapsed (depth + 1) next_lrp [c_to] restTail)
            last_lrp lfrc minlen maxlen pairs
termination_by _ _ _ tail => tail.length

/-- `dereference_path` from `decoding/line_decoding.py` with the default empty
basemap filter (for which the retry-without-filter branch is a no-op): nominate
candidates for the first LRP, fail with `LRFirstLRPNoCandidatesError` when none
exist, else enter `match_tail`.  An empty LRP list would fault on `lrps[0]` in
the source and is rendered as a plain decode error. -/
def dereference_path (env : MatchEnv) (config : Config) (elapsed : ℕ → ℚ)
    (lrps : List LRP) : Except DecErr (List Route) :=
  match lrps with
  | [] => .error .decodeError
  | first_lrp :: rest =>
    let first_candidates := env.nominate first_lrp false
    if first_candidates = [] then
      .error .firstNoCands
    else
      match_tail env config elapsed 0 first_lrp first_candidates rest

/-! ## A* shortest path (`maps/a_star/__init__.py`)

The directed line graph is a finite list of node ids and lines;
`outgoing_lines` follows `maps/abstract.py`'s contract (the lines starting at
the node).  The heuristic (`maps/a_star/tools.py`: the geodesic distance
between the two nodes' coordinates) is an oracle parameter `h`.  Python's
`heapq` pops a minimal item under `PQItem.__lt__`, which compares the
`(f, g)` score pairs lexicographically; `popMin` removes a minimal item.  The
unbounded `while open_set:` loop is driven by a fuel parameter; `astarFuel`
is provably sufficient for well-formed graphs, so `outOfFuel` is an artifact
of the embedding that never occurs under the theorems' hypotheses. -/

/-- A finite directed line graph as seen through the map reader. -/
structure Graph where
  nodes : List ℕ
  lines : List Line
deriving Repr

/-- `Node.outgoing_lines` of `maps/abstract.py`: the lines starting at the node. -/
def Graph.outgoing_lines (g : Graph) (n : ℕ) : List Line :=
  g.lines.filter (fun l => l.start_node = n)

/-- `PQItem` from `maps/a_star/__init__.py`: score `(f, g)`, node, incoming
line and back-link.  The source's `line=None, previous=None` case is the
`initial` constructor; every pushed item has both. -/
inductive PQItem where
  | initial (f gs : ℚ) (node : ℕ)
  | step (f gs : ℚ) (node : ℕ) (line : Line) (previous : PQItem)
deriving DecidableEq, Repr

/-- The `f` component of the item's score. -/
def PQItem.f : PQItem → ℚ
  | .initial f _ _ => f
  | .step f _ _ _ _ => f

/-- The `g` component of the item's score (accumulated path length). -/
def PQItem.gval : PQItem → ℚ
  | .initial _ gs _ => gs
  | .step _ gs _ _ _ => gs

/-- The item's node. -/
def PQItem.node : PQItem → ℕ
  | .initial _ _ n => n
  | .step _ _ n _ _ => n

/-- Walking the back-links and inserting each line at the front — the result
path reconstruction of the source's goal branch, in forward order. -/
def PQItem.path : PQItem → List Line
  | .initial _ _ _ => []
  | .step _ _ _ line previous => previous.path ++ [line]

/-- `PQItem.__lt__`-induced weak order: lexicographic on `(f, g)`. -/
def scoreLE (a b : PQItem) : Bool :=
  decide (a.f < b.f ∨ (a.f = b.f ∧ a.gval ≤ b.gval))

/-- Pop a minimal item (under `scoreLE`) from the queue, returning it and the
remaining items — the effect of `heappop`. -/
def popMin : List PQItem → Option (PQItem × List PQItem)
  | [] => none
  | x :: xs =>
      match popMin xs with
      | none => some (x, [])
      | some (m, rest) =>
          if scoreLE x m then some (x, xs) else some (m, x :: rest)

/-- The neighbour-generation of one expansion (`for line in
current_node.outgoing_lines(): ...`): lines failing the filter are skipped,
closed end nodes are skipped, and a successor whose `f = g + h` exceeds
`maxlen` is pruned; the rest are pushed. -/
def expand (g : Graph) (endId : ℕ) (linefilter : Line → Bool) (maxlen : ℚ)
    (h : ℕ → ℕ → ℚ) (closed_set : List ℕ) (current : PQItem) : List PQItem :=
  (g.outgoing_lines current.node).filterMap (fun line =>
    if ! linefilter line then none
    else if line.end_node ∈ closed_set then none
    else
      let neighbor_g := current.gval + line.length
      let neighbor_f := neighbor_g + h line.end_node endId
      if neighbor_f > maxlen then none
      else some (.step neighbor_f neighbor_g line.end_node line current))

/-- Result of the search: a path, `LRPathNotFoundError`, or fuel exhaustion
(an embedding artifact, excluded by `astarLoop_no_outOfFuel`). -/
inductive AStarResult where
  | ok (path : List Line)
  | notFound
  | outOfFuel
deriving DecidableEq, Repr

/-- The `while open_set:` loop of `shortest_path`: pop a minimal item; return
the reconstructed path at the goal; skip items whose node was already closed;
otherwise push the expansion's successors and close the node.  An empty queue
raises `LRPathNotFoundError`. -/
def astarLoop (g : Graph) (endId : ℕ) (linefilter : Line → Bool) (maxlen : ℚ)
    (h : ℕ → ℕ → ℚ) : ℕ → List PQItem → List ℕ → AStarResult
  | 0, _, _ => .outOfFuel
  | fuel + 1, open_set, closed_set =>
      match popMin open_set with
      | none => .notFound
      | some (current, rest) =>
          if current.node = endId then
            .ok current.path
          else if current.node ∈ closed_set then
            astarLoop g endId linefilter maxlen h fuel rest closed_set
          else
            astarLoop g endId linefilter maxlen h fuel
              (rest ++ expand g endId linefilter maxlen h closed_set current)
              (current.node :: closed_set)

/-- The part of the loop measure contributed by not-yet-closed nodes: one pop
plus one push per outgoing line for each. -/
def nodeBudget (g : Graph) (closed_set : List ℕ) : ℕ :=
  ((g.nodes.filter (fun v => v ∉ closed_set)).map
    (fun v => 1 + (g.outgoing_lines v).length)).sum

/-- A provably sufficient fuel for the loop on graph `g` starting from a
single-item queue. -/
def astarFuel (g : Graph) : ℕ :=
  2 + nodeBudget g []

/-- `shortest_path` from `maps/a_star/__init__.py`: seed the queue with
`PQItem(Score(heuristic(start, end), 0), start, None, None)` and run the loop. -/
def shortest_path (g : Graph) (start endId : ℕ) (linefilter : Line → Bool)
    (maxlen : ℚ) (h : ℕ → ℕ → ℚ) : AStarResult :=
  astarLoop g endId linefilter maxlen h (astarFuel g)
    [.initial (h start endId) 0 start] []

/-- `lines` is a directed chain of edges from node `a` to node `b`. -/
def isChain : ℕ → List Line → ℕ → Prop
  | a, [], b => a = b
  | a, l :: ls, b => l.start_node = a ∧ isChain l.end_node ls b

instance : ∀ a ls b, Decidable (isChain a ls b) := by
  intro a ls b
  induction ls generalizing a with
  | nil => exact inferInstanceAs (Decidable (a = b))
  | cons l ls ih => exact @instDecidableAnd _ _ _ (ih l.end_node)

/-- Well-formedness of the finite graph: node ids are duplicate-free and every
line's endpoints are nodes of the graph. -/
def Graph.WF (g : Graph) : Prop :=
  g.nodes.Nodup ∧ ∀ l ∈ g.lines, l.start_node ∈ g.nodes ∧ l.end_node ∈ g.nodes

/-! # Theorems -/

/-- **C1** — The claim asserts that `make_candidate`'s construction
`Candidate(line, reloff, config.equal_area)` matches the two-field
`Candidate`/`PointOnLine` constructor and that `get_candidate_route`'s
invocation of `shortest_path` with keyword `equal_area` matches
`shortest_path(start, end, linefilter, maxlen)`.  On this source, both are
arity errors: three positional arguments against two tuple fields, and a
keyword naming no parameter.  The claim's error-free reading is the evident
intent (`path_math.py` itself builds `PointOnLine(line, fraction, equal_area)`
against the same two-field class), so the code, not the claim, is at fault. -/
theorem C1_pipeline_calls_are_arity_errors :
    tupleCallWellFormed candidateTupleFields makeCandidateCallArgCount = false ∧
      callAccepted shortestPathParams getCandidateRoutePositionalCount
        getCandidateRouteKwargs = false := by
  constructor <;> rfl

/-- **C10** — Decoding a geo-coordinate location reference is the identity on
its coordinate: for every choice of the three delegated decoders (which close
over the map reader, observer and configuration) and every coordinate, `decode`
returns the reference's coordinate verbatim. -/
theorem C10_geo_coordinate_passthrough :
    ∀ (decodeLine decodePointalongline decodePoiWithAccesspoint :
        ℕ → Except Unit DecodeResult) (point : Coordinates),
      decode decodeLine decodePointalongline decodePoiWithAccesspoint
        (.geoCoordinateRef point) = .ok (.coords point) := by
  intro _ _ _ _
  rfl

/-- A one-way street continuation node: node 1 with a single incoming line
0 → 1 and a single outgoing line 1 → 2. -/
def midRoadNode : NodeAdj :=
  ⟨1, [⟨0, 1⟩], [⟨1, 2⟩]⟩

/-- **C3** — The claim (and the source's own comments, which announce "the
unique nodes of all incoming and outgoing lines") requires `is_valid_node` to
return `false` on a node of arity (1,1) whose incoming and outgoing lines
together touch exactly three distinct nodes.  Because `is_invalid_node`
iterates over `outgoing_line_nodes` in both of its endpoint loops and never
reads the incoming list it just built, the mid-road node 0 → 1 → 2 — whose
adjacent edges touch the three distinct nodes {0, 1, 2} — is classified
*valid*. -/
theorem C3_mid_road_node_misclassified :
    is_valid_node midRoadNode = true ∧
      midRoadNode.incoming_line_nodes.length = 1 ∧
      midRoadNode.outgoing_line_nodes.length = 1 ∧
      (addEndpoints (addEndpoints ∅ midRoadNode.incoming_line_nodes)
        midRoadNode.outgoing_line_nodes).card = 3 := by
  refine ⟨by decide, rfl, rfl, by decide⟩

/-- **C4** — Config persistence does not round-trip: for every `Config` value,
the dictionary written by `save_config` keys the entries by the seventeen
tuple field names, while `load_config` demands the key
`"rel_candidate_threshold"`, which `save_config` never writes; the load
therefore raises `KeyError("rel_candidate_threshold")` instead of returning
the config (the source's own test `test_load_saved_config` exercises exactly
this round trip).  `load_config` moreover never reads back
`frc_score_tolerance` or `equal_area_srid` and supplies only sixteen values to
the seventeen-field constructor. -/
theorem C4_config_roundtrip_fails :
    ∀ config : Config,
      ((save_config config).map Prod.fst).contains "rel_candidate_threshold" = false ∧
        load_config (save_config config) = .error "rel_candidate_threshold" ∧
        config.tupleVals.length = 17 := by
  intro config
  refine ⟨rfl, rfl, rfl⟩

/-- The sector of an angle is never negative. -/
theorem angle_sector_nonneg (a : ℚ) : 0 ≤ angle_sector a := by
  simp only [angle_sector]
  exact Int.emod_nonneg _ (by norm_num)

/-- The sector of an angle is below 32. -/
theorem angle_sector_lt (a : ℚ) : angle_sector a < 32 := by
  simp only [angle_sector]
  exact Int.emod_lt_of_pos _ (by norm_num)

/-- The folded sector distance lies in `[0, 16]`. -/
theorem angle_sector_difference_range (a b : ℚ) :
    0 ≤ angle_sector_difference a b ∧ angle_sector_difference a b ≤ 16 := by
  have ha₁ := angle_sector_nonneg a
  have ha₂ := angle_sector_lt a
  have hb₁ := angle_sector_nonneg b
  have hb₂ := angle_sector_lt b
  rcases abs_cases (angle_sector a - angle_sector b) with ⟨he, h0⟩ | ⟨he, h0⟩ <;>
    simp only [angle_sector_difference, he] <;> split_ifs <;> omega

/-- **C2 counterexample** — With expected bearing 0° and computed bearing 1°,
the source's bearing sub-score (`score_bearing`, which calls
`score_angle_sector_differences`) is 1, whereas the claim's formula
`1 − |angle_difference(expected, computed)| / 180` yields 179/180: the claimed
equality fails at this input. -/
theorem C2_counterexample :
    score_bearing (fun _ _ _ _ => 1) ⟨0, 0, 0⟩ ⟨⟨0, 0, 0, 0, 0⟩, 0⟩ false 20 = 1 ∧
      1 - |angle_difference 0 1| / 180 = 179 / 180 ∧ (1 : ℚ) ≠ 179 / 180 := by
  have h1 : angle_sector 0 = 0 := by norm_num [angle_sector, pyInt]
  have h2 : angle_sector 1 = 0 := by norm_num [angle_sector, pyInt]
  have hd : angle_difference 0 1 = 1 := by norm_num [angle_difference, pyFmod]
  refine ⟨?_, ?_, by norm_num⟩
  · show score_angle_sector_differences 0 1 = 1
    norm_num [score_angle_sector_differences, angle_sector_difference, h1, h2]
  · rw [hd]
    norm_num

/-- **C2 amended** — The bearing sub-score used in candidate scoring is
sector-based, not proportional to the angle difference: it equals
`1 − d/16` where `d ∈ [0, 16]` is the circular distance of the 32 sectors of
11.25° containing the expected and computed bearings. -/
theorem C2_bearing_score_sector_formula :
    ∀ (computeBearing : LRP → PointOnLine → Bool → ℚ → ℚ)
      (wanted : LRP) (actual : PointOnLine) (is_last_lrp : Bool) (bear_dist : ℚ),
      score_bearing computeBearing wanted actual is_last_lrp bear_dist =
        1 - (angle_sector_difference wanted.bear
              (computeBearing wanted actual is_last_lrp bear_dist) : ℚ) / 16 ∧
      0 ≤ angle_sector_difference wanted.bear
            (computeBearing wanted actual is_last_lrp bear_dist) ∧
      angle_sector_difference wanted.bear
            (computeBearing wanted actual is_last_lrp bear_dist) ≤ 16 := by
  intro cb w a l bd
  exact ⟨rfl, (angle_sector_difference_range _ _).1, (angle_sector_difference_range _ _).2⟩

/-- A ten-meter line used by the same-line routing counterexample. -/
def c5line : Line := ⟨1, 10, 11, 10, 0⟩

/-- Same-line start candidate at relative offset 9/10. -/
def c5start : Candidate := ⟨⟨c5line, 9/10⟩, 0⟩

/-- Same-line destination candidate at relative offset 1/10, *before* the
start. -/
def c5dest : Candidate := ⟨⟨c5line, 1/10⟩, 0⟩

/-- The single-edge route `get_candidate_route` builds for that pair. -/
def c5route : Route := ⟨⟨c5line, 9/10⟩, [], ⟨c5line, 1/10⟩⟩

/-- **C5 counterexample** — `get_candidate_route` has no offset precondition
on its same-line branch: for two candidates on the same ten-meter line with
start offset 9/10 and end offset 1/10 it returns the single-edge route (empty
interior) whose end offset is *smaller* than its start offset and whose length
is −8 m, contradicting the claim that same-edge routes are produced only when
`start.offset ≤ end.offset` and therefore have non-negative length. -/
theorem C5_counterexample :
    get_candidate_route (fun _ _ _ _ => .error ()) c5start c5dest 0 100 = some c5route ∧
      c5route.endP.relative_offset < c5route.start.relative_offset ∧
      c5route.length = -8 := by
  refine ⟨rfl, by norm_num [c5route, c5line], ?_⟩
  norm_num [c5route, c5line, Route.length, Route.lines, path_length,
    PointOnLine.distance_from_start, PointOnLine.distance_to_end]

/-- **C5 amended** — When the two candidates of a pair lie on the same line,
`get_candidate_route` *unconditionally* returns the single-edge route with
empty interior, performing no offset comparison; the route's length is
`(end.relative_offset − start.relative_offset) · line.length`, which (for a
line of positive length) is non-negative exactly when the end offset is at
least the start offset — so same-edge routes with inverted offsets are
produced and have negative length. -/
theorem C5_same_line_route_unchecked (sp : SPOracle) (start dest : Candidate)
    (lfrc : ℕ) (maxlen : ℚ)
    (hline : start.line = dest.line)
    (hs0 : 0 ≤ start.relative_offset) (he1 : dest.relative_offset ≤ 1)
    (hlen : 0 < start.line.length) :
    get_candidate_route sp start dest lfrc maxlen =
        some ⟨start.toPointOnLine, [], dest.toPointOnLine⟩ ∧
      Route.length ⟨start.toPointOnLine, [], dest.toPointOnLine⟩ =
        (dest.relative_offset - start.relative_offset) * start.line.length ∧
      (0 ≤ Route.length ⟨start.toPointOnLine, [], dest.toPointOnLine⟩ ↔
        start.relative_offset ≤ dest.relative_offset) := by
  have hid : start.line.line_id = dest.line.line_id := by rw [hline]
  have hlines : Route.lines ⟨start.toPointOnLine, [], dest.toPointOnLine⟩ = [dest.line] := by
    simp [Route.lines, hid]
  have hlength : Route.length ⟨start.toPointOnLine, [], dest.toPointOnLine⟩ =
      (dest.relative_offset - start.relative_offset) * start.line.length := by
    simp only [Route.length, hlines, path_length, List.map_cons, List.map_nil,
      List.sum_cons, List.sum_nil, PointOnLine.distance_from_start,
      PointOnLine.distance_to_end]
    rw [hline]
    split_ifs with h1 h2 h3
    · ring
    · have h0 : start.relative_offset = 0 := le_antisymm (not_lt.mp h2) hs0
      rw [h0]; ring
    · have he : dest.relative_offset = 1 := le_antisymm he1 (not_lt.mp h1)
      rw [he]; ring
    · have he : dest.relative_offset = 1 := le_antisymm he1 (not_lt.mp h1)
      have h0 : start.relative_offset = 0 := le_antisymm (not_lt.mp h3) hs0
      rw [he, h0]; ring
  refine ⟨by simp [get_candidate_route, hid], hlength, ?_⟩
  rw [hlength, mul_nonneg_iff_of_pos_right hlen, sub_nonneg]

/-- **C5 witness** — The amended statement instantiated at the concrete
inverted same-line pair. -/
theorem C5_witness :
    (c5start.line = c5dest.line ∧ 0 ≤ c5start.relative_offset ∧
        c5dest.relative_offset ≤ 1 ∧ 0 < c5start.line.length) ∧
      (get_candidate_route (fun _ _ _ _ => .error ()) c5start c5dest 0 100 =
          some ⟨c5start.toPointOnLine, [], c5dest.toPointOnLine⟩ ∧
        Route.length ⟨c5start.toPointOnLine, [], c5dest.toPointOnLine⟩ =
          (c5dest.relative_offset - c5start.relative_offset) * c5start.line.length ∧
        (0 ≤ Route.length ⟨c5start.toPointOnLine, [], c5dest.toPointOnLine⟩ ↔
          c5start.relative_offset ≤ c5dest.relative_offset)) :=
  ⟨⟨rfl, by norm_num [c5start, c5line], by norm_num [c5dest, c5line],
      by norm_num [c5start, c5line]⟩,
    C5_same_line_route_unchecked (fun _ _ _ _ => .error ()) c5start c5dest 0 100 rfl
      (by norm_num [c5start, c5line]) (by norm_num [c5dest, c5line])
      (by norm_num [c5start, c5line])⟩

/-- Sums of non-negative edge lengths are non-negative. -/
theorem path_length_nonneg (ls : List Line) (h : ∀ l ∈ ls, 0 ≤ l.length) :
    0 ≤ path_length ls := by
  refine List.sum_nonneg ?_
  intro x hx
  obtain ⟨l, hl, rfl⟩ := List.mem_map.mp hx
  exact h l hl

/-- The edge list surviving a successful `drop_edges` is never empty. -/
theorem drop_edges_ok_ne_nil (off : ℚ) (ls : List Line) (r : ℚ) (ls' : List Line)
    (h : drop_edges off ls = .ok (r, ls')) : ls' ≠ [] := by
  induction ls generalizing off with
  | nil => simp [drop_edges] at h
  | cons l rest ih =>
    cases rest with
    | nil =>
        rw [drop_edges] at h
        split_ifs at h
        have h' : off = r ∧ [l] = ls' := by simpa using h
        exact h'.2 ▸ List.cons_ne_nil l []
    | cons a as =>
        rw [drop_edges] at h
        split_ifs at h
        · exact ih (off - l.length) h
        · have h' : off = r ∧ l :: a :: as = ls' := by simpa using h
          exact h'.2 ▸ List.cons_ne_nil l (a :: as)

/-- `drop_edges` fails exactly when it runs off the end of the list: on a list
of non-negatively-long edges, the error occurs iff the list is empty or the
offset is at least the total length. -/
theorem drop_edges_error_iff (off : ℚ) (ls : List Line)
    (hlen : ∀ l ∈ ls, 0 ≤ l.length) :
    drop_edges off ls = .error () ↔ ls = [] ∨ path_length ls ≤ off := by
  induction ls generalizing off with
  | nil => simp [drop_edges]
  | cons l rest ih =>
    have hrest : ∀ x ∈ rest, 0 ≤ x.length := fun x hx => hlen x (by simp [hx])
    have hplc : path_length (l :: rest) = l.length + path_length rest := by
      simp [path_length]
    cases rest with
    | nil =>
        rw [drop_edges]
        split_ifs with hge
        · simp [path_length, ge_iff_le.mp hge]
        · have hlt : off < l.length := not_le.mp (by simpa using hge)
          simp [path_length, hlt.not_le]
    | cons a as =>
        rw [drop_edges]
        split_ifs with hge
        · rw [ih (off - l.length) hrest]
          constructor
          · rintro (h | h)
            · exact absurd h (by simp)
            · right
              rw [hplc]
              simp only [path_length, List.map_cons, List.sum_cons] at h ⊢
              linarith
          · rintro (h | h)
            · exact absurd h (by simp)
            · right
              rw [hplc] at h
              simp only [path_length, List.map_cons, List.sum_cons] at h ⊢
              linarith
        · have hlt : off < l.length := not_le.mp (by simpa using hge)
          have hsum : 0 ≤ path_length (a :: as) := path_length_nonneg _ hrest
          constructor
          · intro h; simp at h
          · rintro (h | h)
            · exact absurd h (by simp)
            · rw [hplc] at h
              exfalso
              linarith

/-- A one-edge route for the offset-trimmer counterexample: a single
ten-meter line, start offset 0, end offset 1. -/
def c6line : Line := ⟨1, 0, 1, 10, 0⟩

/-- The one-edge route. -/
def c6route : Route := ⟨⟨c6line, 0⟩, [], ⟨c6line, 1⟩⟩

/-- **C6 counterexample** — Trimming the ten-meter single-edge route by a
6 m positive and a 6 m negative offset leaves one edge with the resulting end
point (relative offset 2/5) strictly *before* the resulting start point
(relative offset 3/5); the claim requires `remove_offsets` to fail with the
offset-exceeds-path error in this situation, but the source performs no such
check and returns the inverted route. -/
theorem C6_counterexample :
    remove_offsets c6route 6 6 = .ok ⟨⟨c6line, 3/5⟩, [], ⟨c6line, 2/5⟩⟩ ∧
      (2/5 : ℚ) < 3/5 := by
  constructor
  · have h1 : drop_edges (6 + c6route.absolute_start_offset) c6route.lines =
        .ok (6, [c6line]) := by
      norm_num [drop_edges, c6route, c6line, Route.lines, Route.absolute_start_offset,
        PointOnLine.distance_from_start]
    have h2 : drop_edges (6 + c6route.absolute_end_offset) [c6line].reverse =
        .ok (6, [c6line]) := by
      norm_num [drop_edges, c6route, c6line, Route.absolute_end_offset,
        PointOnLine.distance_to_end]
    simp only [remove_offsets, h1, h2]
    norm_num [c6line]
  · norm_num

/-- **C6 amended** — The offset trimmer drops whole edges from the front
while the remaining positive offset is ≥ the first edge's length (and
symmetrically from the back on the reversed list) and fails with the
offset-exceeds-path decode error exactly when an edge list becomes empty,
i.e. when the offset is at least the remaining total length; however, when
only one edge remains it builds the trimmed route *unconditionally*, placing
the start at `remaining_poff` meters and the end at `length − remaining_noff`
meters into that edge with no end-not-before-start check. -/
theorem C6_remove_offsets_spec :
    (∀ (off : ℚ) (l : Line), l.length ≤ off → drop_edges off [l] = .error ()) ∧
      (∀ (off : ℚ) (l r : Line) (rest : List Line), l.length ≤ off →
        drop_edges off (l :: r :: rest) = drop_edges (off - l.length) (r :: rest)) ∧
      (∀ (off : ℚ) (l : Line) (rest : List Line), off < l.length →
        drop_edges off (l :: rest) = .ok (off, l :: rest)) ∧
      (∀ (off : ℚ) (ls : List Line), (∀ l ∈ ls, 0 ≤ l.length) →
        (drop_edges off ls = .error () ↔ ls = [] ∨ path_length ls ≤ off)) ∧
      (∀ (path : Route) (p_off n_off : ℚ),
        drop_edges (p_off + path.absolute_start_offset) path.lines = .error () →
        remove_offsets path p_off n_off = .error ()) ∧
      (∀ (path : Route) (p_off n_off rp : ℚ) (ls : List Line),
        drop_edges (p_off + path.absolute_start_offset) path.lines = .ok (rp, ls) →
        drop_edges (n_off + path.absolute_end_offset) ls.reverse = .error () →
        remove_offsets path p_off n_off = .error ()) ∧
      (∀ (path : Route) (p_off n_off rp rn : ℚ) (L : Line),
        drop_edges (p_off + path.absolute_start_offset) path.lines = .ok (rp, [L]) →
        drop_edges (n_off + path.absolute_end_offset) [L] = .ok (rn, [L]) →
        remove_offsets path p_off n_off =
          .ok ⟨⟨L, rp / L.length⟩, [], ⟨L, 1 - rn / L.length⟩⟩) := by
  refine ⟨?_, ?_, ?_, fun off ls h => drop_edges_error_iff off ls h, ?_, ?_, ?_⟩
  · intro off l h
    simp [drop_edges, h]
  · intro off l r rest h
    simp [drop_edges, h]
  · intro off l rest h
    cases rest with
    | nil => rw [drop_edges]; simp [not_le.mpr h]
    | cons a as => rw [drop_edges]; simp [not_le.mpr h]
  · intro path p_off n_off h
    simp [remove_offsets, h]
  · intro path p_off n_off rp ls h1 h2
    simp [remove_offsets, h1, h2]
  · intro path p_off n_off rp rn L h1 h2
    simp [remove_offsets, h1, h2]

/-- **C6 witness** — The amended trimmer behaviour instantiated on the
concrete one-edge route with 6 m offsets on both sides. -/
theorem C6_witness :
    (drop_edges (6 + c6route.absolute_start_offset) c6route.lines = .ok (6, [c6line]) ∧
        drop_edges (6 + c6route.absolute_end_offset) [c6line] = .ok (6, [c6line])) ∧
      remove_offsets c6route 6 6 =
        .ok ⟨⟨c6line, 6 / c6line.length⟩, [], ⟨c6line, 1 - 6 / c6line.length⟩⟩ := by
  have h1 : drop_edges (6 + c6route.absolute_start_offset) c6route.lines =
      .ok (6, [c6line]) := by
    norm_num [drop_edges, c6route, c6line, Route.lines, Route.absolute_start_offset,
      PointOnLine.distance_from_start]
  have h2 : drop_edges (6 + c6route.absolute_end_offset) [c6line] = .ok (6, [c6line]) := by
    norm_num [drop_edges, c6route, c6line, Route.absolute_end_offset,
      PointOnLine.distance_to_end]
  exact ⟨⟨h1, h2⟩, C6_remove_offsets_spec.2.2.2.2.2.2 c6route 6 6 6 6 c6line h1 h2⟩

/-- First line of the point-along-line counterexample route: 100 m. -/
def c9l1 : Line := ⟨1, 0, 1, 100, 0⟩

/-- Second line of the point-along-line counterexample route: 100 m. -/
def c9l2 : Line := ⟨2, 1, 2, 100, 0⟩

/-- A two-edge route covering both lines fully (start offset 0, end offset 1,
combined length 200 m). -/
def c9route : Route := ⟨⟨c9l1, 0⟩, [], ⟨c9l2, 1⟩⟩

/-- **C9 counterexample** — Stepping 150 m into the 200 m two-edge route, the
point lies 50 m into the second edge, yet `point_along_linelocation` returns
the edge with offset 100 (the *route end point's* offset, not the queried
point's residual).  Moreover at exactly 200 m — equal to, not larger than, the
combined length — the function raises the offset-exceeds-path error, though
the claim permits failure only for offsets strictly larger than the combined
length. -/
theorem C9_counterexample :
    point_along_linelocation c9route 150 = .ok (c9l2, 100) ∧ (100 : ℚ) ≠ 50 ∧
      c9route.length = 200 ∧ (150 : ℚ) < 200 ∧
      point_along_linelocation c9route 200 = .error () ∧ ¬(200 : ℚ) > 200 := by
  refine ⟨?_, by norm_num, ?_, by norm_num, ?_, by norm_num⟩
  · norm_num [point_along_linelocation, walkInterior, c9route, c9l1, c9l2]
  · norm_num [c9route, c9l1, c9l2, Route.length, Route.lines, path_length,
      PointOnLine.distance_from_start, PointOnLine.distance_to_end]
  · norm_num [point_along_linelocation, walkInterior, c9route, c9l1, c9l2]

/-- On passing through the whole interior list, the walk has consumed exactly
the sum of the edge lengths. -/
theorem walkInterior_inr_val (lo : ℚ) (ls : List Line) (lo' : ℚ)
    (h : walkInterior lo ls = .inr lo') : lo' = lo - path_length ls := by
  induction ls generalizing lo with
  | nil =>
      rw [walkInterior] at h
      cases h
      simp [path_length]
  | cons road rest ih =>
      rw [walkInterior] at h
      split_ifs at h with hgt
      have := ih (lo - road.length) h
      simp only [path_length, List.map_cons, List.sum_cons] at this ⊢
      linarith

/-- When the leftover strictly exceeds the total interior length (the edges
being non-negatively long), the walk passes through the whole list. -/
theorem walkInterior_all_through (lo : ℚ) (ls : List Line)
    (hlen : ∀ l ∈ ls, 0 ≤ l.length) (h : path_length ls < lo) :
    walkInterior lo ls = .inr (lo - path_length ls) := by
  induction ls generalizing lo with
  | nil => simp [walkInterior, path_length]
  | cons road rest ih =>
      have hrest : ∀ x ∈ rest, 0 ≤ x.length := fun x hx => hlen x (by simp [hx])
      have hsum : 0 ≤ path_length rest := path_length_nonneg rest hrest
      have hplc : path_length (road :: rest) = road.length + path_length rest := by
        simp [path_length]
      rw [hplc] at h ⊢
      have hgt : road.length < lo := by linarith
      rw [walkInterior, if_pos hgt, ih (lo - road.length) hrest (by linarith)]
      congr 1
      ring

/-- **C9 amended** — The point-along-line walk takes
`offset = route.length · poffs` and consumes meters through the first partial
edge, the interior edges and the last partial edge, preserving side of road
and orientation; it returns the correct residual offset when the point falls
on the first partial edge or an interior edge, but when the point falls on
the last partial edge it returns the *end point's* absolute offset
`endP.line.length · endP.relative_offset` instead of the point's residual;
and it raises the offset-exceeds-path error exactly when the offset is at
least (not strictly larger than) the walk's combined length
(first partial + interior + last partial). -/
theorem C9_point_along_spec :
    (∀ (route : Route) (len : ℚ),
        len < route.start.line.length * (1 - route.start.relative_offset) →
        point_along_linelocation route len =
          .ok (route.start.line,
            route.start.line.length * route.start.relative_offset + len)) ∧
      (∀ (lo : ℚ) (road : Line) (rest : List Line), road.length < lo →
        walkInterior lo (road :: rest) = walkInterior (lo - road.length) rest) ∧
      (∀ (lo : ℚ) (road : Line) (rest : List Line), lo ≤ road.length →
        walkInterior lo (road :: rest) = .inl (road, lo)) ∧
      (∀ (route : Route) (len : ℚ) (road : Line) (off : ℚ),
        ¬len < route.start.line.length * (1 - route.start.relative_offset) →
        walkInterior (len - route.start.line.length * (1 - route.start.relative_offset))
            route.path_inbetween = .inl (road, off) →
        point_along_linelocation route len = .ok (road, off)) ∧
      (∀ (route : Route) (len lo : ℚ),
        ¬len < route.start.line.length * (1 - route.start.relative_offset) →
        walkInterior (len - route.start.line.length * (1 - route.start.relative_offset))
            route.path_inbetween = .inr lo →
        (lo < route.endP.line.length * route.endP.relative_offset →
          point_along_linelocation route len =
            .ok (route.endP.line,
              route.endP.line.length * route.endP.relative_offset)) ∧
        (route.endP.line.length * route.endP.relative_offset ≤ lo →
          point_along_linelocation route len = .error ())) ∧
      (∀ (route : Route) (len : ℚ), point_along_linelocation route len = .error () →
        route.start.line.length * (1 - route.start.relative_offset) +
            path_length route.path_inbetween +
            route.endP.line.length * route.endP.relative_offset ≤ len) ∧
      (∀ (route : Route) (len : ℚ), (∀ l ∈ route.path_inbetween, 0 ≤ l.length) →
        0 ≤ route.endP.line.length * route.endP.relative_offset →
        route.start.line.length * (1 - route.start.relative_offset) +
            path_length route.path_inbetween +
            route.endP.line.length * route.endP.relative_offset < len →
        point_along_linelocation route len = .error ()) ∧
      (∀ (path : Route) (poffs : ℚ) (s o : ℕ) (l : Line) (off : ℚ),
        decode_pointalongline path poffs s o = .ok ⟨l, off, s, o⟩ ↔
          point_along_linelocation path (path.length * poffs) = .ok (l, off)) := by
  have hfirst : ∀ (route : Route) (len : ℚ),
      len < route.start.line.length * (1 - route.start.relative_offset) →
      point_along_linelocation route len =
        .ok (route.start.line,
          route.start.line.length * route.start.relative_offset + len) := by
    intro route len h
    rw [point_along_linelocation, if_pos (by linarith)]
  have hinl : ∀ (route : Route) (len : ℚ) (road : Line) (off : ℚ),
      ¬len < route.start.line.length * (1 - route.start.relative_offset) →
      walkInterior (len - route.start.line.length * (1 - route.start.relative_offset))
          route.path_inbetween = .inl (road, off) →
      point_along_linelocation route len = .ok (road, off) := by
    intro route len road off h hw
    rw [point_along_linelocation, if_neg (by intro hc; exact h (by linarith)), hw]
  have hinr : ∀ (route : Route) (len lo : ℚ),
      ¬len < route.start.line.length * (1 - route.start.relative_offset) →
      walkInterior (len - route.start.line.length * (1 - route.start.relative_offset))
          route.path_inbetween = .inr lo →
      (lo < route.endP.line.length * route.endP.relative_offset →
        point_along_linelocation route len =
          .ok (route.endP.line, route.endP.line.length * route.endP.relative_offset)) ∧
      (route.endP.line.length * route.endP.relative_offset ≤ lo →
        point_along_linelocation route len = .error ()) := by
    intro route len lo h hw
    constructor
    · intro hlt
      rw [point_along_linelocation, if_neg (by intro hc; exact h (by linarith)), hw]
      simp only [if_pos (show lo - route.endP.line.length * route.endP.relative_offset < 0
        by linarith)]
    · intro hge
      rw [point_along_linelocation, if_neg (by intro hc; exact h (by linarith)), hw]
      simp only [if_neg (show ¬lo - route.endP.line.length * route.endP.relative_offset < 0
        by push_neg; linarith)]
  refine ⟨hfirst, ?_, ?_, hinl, hinr, ?_, ?_, ?_⟩
  · intro lo road rest h
    rw [walkInterior, if_pos h]
  · intro lo road rest h
    rw [walkInterior, if_neg (not_lt.mpr h)]
  · intro route len herr
    by_cases h0 : len < route.start.line.length * (1 - route.start.relative_offset)
    · rw [hfirst route len h0] at herr
      simp at herr
    · cases hw : walkInterior
          (len - route.start.line.length * (1 - route.start.relative_offset))
          route.path_inbetween with
      | inl p =>
          rw [hinl route len p.1 p.2 h0 (by rw [hw])] at herr
          simp at herr
      | inr lo =>
          have hval := walkInterior_inr_val _ _ _ hw
          by_cases hend : lo < route.endP.line.length * route.endP.relative_offset
          · rw [(hinr route len lo h0 hw).1 hend] at herr
            simp at herr
          · push_neg at h0 hend
            rw [hval] at hend
            linarith
  · intro route len hlen hend hlt
    have hsum : 0 ≤ path_length route.path_inbetween := path_length_nonneg _ hlen
    have h0 : ¬len < route.start.line.length * (1 - route.start.relative_offset) := by
      push_neg
      linarith
    have hthrough : walkInterior
        (len - route.start.line.length * (1 - route.start.relative_offset))
        route.path_inbetween =
        .inr (len - route.start.line.length * (1 - route.start.relative_offset) -
          path_length route.path_inbetween) :=
      walkInterior_all_through _ _ hlen (by linarith)
    exact (hinr route len _ h0 hthrough).2 (by linarith)
  · intro path poffs s o l off
    constructor
    · intro h
      cases hp : point_along_linelocation path (path.length * poffs) with
      | ok p =>
          obtain ⟨p1, p2⟩ := p
          rw [decode_pointalongline, hp] at h
          simp only [Except.ok.injEq, PointAlongLine.mk.injEq, and_true] at h
          rw [h.1, h.2]
      | error e =>
          rw [decode_pointalongline, hp] at h
          simp at h
    · intro h
      rw [decode_pointalongline, h]

/-- **C9 witness** — The amended walk instantiated: 50 m into the concrete
route falls on the first partial edge and yields the start line with residual
offset 50. -/
theorem C9_witness :
    ((50 : ℚ) < c9route.start.line.length * (1 - c9route.start.relative_offset)) ∧
      point_along_linelocation c9route 50 =
        .ok (c9route.start.line,
          c9route.start.line.length * c9route.start.relative_offset + 50) :=
  ⟨by norm_num [c9route, c9l1], C9_point_along_spec.1 c9route 50 (by norm_num [c9route, c9l1])⟩

/-- Only the `decodeError` kind is an instance of `LRDecodeError`. -/
theorem isLRDecodeError_false (e : DecErr) (he : e ≠ .decodeError) :
    isLRDecodeError e = false := by
  cases e
  · exact absurd rfl he
  all_goals rfl

/-- **C8** — Failure propagation in the matcher:
(i) `get_candidate_route` converts a path-not-found from the A* search into
`None`;
(ii) `match_tail`'s pair loop then continues with the next pair;
(iii) a recursive `match_tail` failure of the `LRDecodeError` kind is caught
and the loop retries the next pair (backtracking);
(iv) a recursive failure of any other kind — timeout or
no-candidates-for-last-LRP — propagates out of the loop;
(v) an exhausted pair list raises `LRDecodeError`;
(vi) an expired wall clock raises `LRTimeoutError` at frame entry;
(vii) a last LRP with no candidates raises `LRLastLRPNoCandidatesError`;
(viii) a first LRP with no candidates makes `dereference_path` raise
`LRFirstLRPNoCandidatesError`;
(ix) otherwise `match_tail` runs its pair loop on the sorted candidate pairs,
recursing depth-first; and (x) a found route on the last LRP is returned. -/
theorem C8_error_propagation :
    (∀ (sp : SPOracle) (start dest : Candidate) (lfrc : ℕ) (maxlen : ℚ),
        start.line.line_id ≠ dest.line.line_id →
        sp start.line.end_node dest.line.start_node
            (fun line => line.frc ≤ lfrc) maxlen = .error () →
        get_candidate_route sp start dest lfrc maxlen = none) ∧
      (∀ (sp : SPOracle) (recurse : Candidate → Except DecErr (List Route))
          (last_lrp : Bool) (lfrc : ℕ) (minlen maxlen : ℚ) (c_from c_to : Candidate)
          (rest : List (Candidate × Candidate)),
        handleCandidatePair sp c_from c_to lfrc minlen maxlen = none →
        pairLoop sp recurse last_lrp lfrc minlen maxlen ((c_from, c_to) :: rest) =
          pairLoop sp recurse last_lrp lfrc minlen maxlen rest) ∧
      (∀ (sp : SPOracle) (recurse : Candidate → Except DecErr (List Route))
          (lfrc : ℕ) (minlen maxlen : ℚ) (c_from c_to : Candidate)
          (rest : List (Candidate × Candidate)) (route : Route),
        handleCandidatePair sp c_from c_to lfrc minlen maxlen = some route →
        recurse c_to = .error .decodeError →
        pairLoop sp recurse false lfrc minlen maxlen ((c_from, c_to) :: rest) =
          pairLoop sp recurse false lfrc minlen maxlen rest) ∧
      (∀ (sp : SPOracle) (recurse : Candidate → Except DecErr (List Route))
          (lfrc : ℕ) (minlen maxlen : ℚ) (c_from c_to : Candidate)
          (rest : List (Candidate × Candidate)) (route : Route) (e : DecErr),
        e ≠ .decodeError →
        handleCandidatePair sp c_from c_to lfrc minlen maxlen = some route →
        recurse c_to = .error e →
        pairLoop sp recurse false lfrc minlen maxlen ((c_from, c_to) :: rest) =
          .error e) ∧
      (∀ (sp : SPOracle) (recurse : Candidate → Except DecErr (List Route))
          (last_lrp : Bool) (lfrc : ℕ) (minlen maxlen : ℚ),
        pairLoop sp recurse last_lrp lfrc minlen maxlen [] = .error .decodeError) ∧
      (∀ (env : MatchEnv) (config : Config) (elapsed : ℕ → ℚ) (depth : ℕ)
          (current : LRP) (candidates : List Candidate) (tail : List LRP),
        elapsed depth > config.timeout →
        match_tail env config elapsed depth current candidates tail =
          .error .timeoutError) ∧
      (∀ (env : MatchEnv) (config : Config) (elapsed : ℕ → ℚ) (depth : ℕ)
          (current : LRP) (candidates : List Candidate) (next : LRP),
        ¬elapsed depth > config.timeout →
        env.nominate next true = [] →
        match_tail env config elapsed depth current candidates [next] =
          .error .lastNoCands) ∧
      (∀ (env : MatchEnv) (config : Config) (elapsed : ℕ → ℚ) (first : LRP)
          (rest : List LRP),
        env.nominate first false = [] →
        dereference_path env config elapsed (first :: rest) = .error .firstNoCands) ∧
      (∀ (env : MatchEnv) (config : Config) (elapsed : ℕ → ℚ) (depth : ℕ)
          (current : LRP) (candidates : List Candidate) (next : LRP) (rest : List LRP),
        ¬elapsed depth > config.timeout →
        ¬(rest.isEmpty ∧ env.nominate next rest.isEmpty = []) →
        match_tail env config elapsed depth current candidates (next :: rest) =
          pairLoop env.sp
            (fun c_to => match_tail env config elapsed (depth + 1) next [c_to] rest)
            rest.isEmpty (lfrcLookup config.tolerated_lfrc current.lfrcnp)
            ((1 - config.max_dnp_deviation) * current.dnp - config.tolerated_dnp_dev)
            ((1 + config.max_dnp_deviation) * current.dnp + config.tolerated_dnp_dev)
            (sortPairs (candidatePairs candidates (env.nominate next rest.isEmpty)))) ∧
      (∀ (sp : SPOracle) (recurse : Candidate → Except DecErr (List Route))
          (lfrc : ℕ) (minlen maxlen : ℚ) (c_from c_to : Candidate)
          (rest : List (Candidate × Candidate)) (route : Route),
        handleCandidatePair sp c_from c_to lfrc minlen maxlen = some route →
        pairLoop sp recurse true lfrc minlen maxlen ((c_from, c_to) :: rest) =
          .ok [route]) := by
  refine ⟨?_, ?_, ?_, ?_, ?_, ?_, ?_, ?_, ?_, ?_⟩
  · intro sp start dest lfrc maxlen hne hsp
    simp only [get_candidate_route, if_neg hne]
    rw [hsp]
  · intro sp recurse last_lrp lfrc minlen maxlen c_from c_to rest h
    rw [pairLoop, h]
  · intro sp recurse lfrc minlen maxlen c_from c_to rest route h hr
    rw [pairLoop, h]
    simp [hr, isLRDecodeError]
  · intro sp recurse lfrc minlen maxlen c_from c_to rest route e he h hr
    rw [pairLoop, h]
    simp [hr, isLRDecodeError_false e he]
  · intro sp recurse last_lrp lfrc minlen maxlen
    rw [pairLoop]
  · intro env config elapsed depth current candidates tail h
    rw [match_tail.eq_def]
    dsimp only
    rw [if_pos h]
  · intro env config elapsed depth current candidates next h1 h2
    rw [match_tail.eq_def]
    dsimp only
    rw [if_neg h1]
    simp [h2]
  · intro env config elapsed first rest h
    simp [dereference_path, h]
  · intro env config elapsed depth current candidates next rest h1 h2
    rw [match_tail.eq_def]
    dsimp only
    rw [if_neg h1]
    simp only [if_neg h2]
  · intro sp recurse lfrc minlen maxlen c_from c_to rest route h
    rw [pairLoop, h]
    simp

/-- A matcher environment whose search always fails and which nominates no
candidates. -/
def c8env : MatchEnv := ⟨fun _ _ _ _ => .error (), fun _ _ => []⟩

/-- A trivial LRP. -/
def c8lrp : LRP := ⟨0, 0, 0⟩

/-- **C8 witness** — Two propagation cases of the theorem instantiated:
an expired clock makes `match_tail` raise the timeout kind, and an empty
first-LRP candidate set makes `dereference_path` raise the
first-LRP-no-candidates kind. -/
theorem C8_witness :
    ((fun _ : ℕ => (50001 : ℚ)) 0 > DEFAULT_CONFIG.timeout ∧
        c8env.nominate c8lrp false = []) ∧
      match_tail c8env DEFAULT_CONFIG (fun _ => 50001) 0 c8lrp [] [c8lrp] =
        .error .timeoutError ∧
      dereference_path c8env DEFAULT_CONFIG (fun _ => 50001) [c8lrp] =
        .error .firstNoCands :=
  ⟨⟨by norm_num [DEFAULT_CONFIG], rfl⟩,
    C8_error_propagation.2.2.2.2.2.1 c8env DEFAULT_CONFIG (fun _ => 50001) 0 c8lrp []
      [c8lrp] (by norm_num [DEFAULT_CONFIG]),
    C8_error_propagation.2.2.2.2.2.2.2.1 c8env DEFAULT_CONFIG (fun _ => 50001) c8lrp []
      rfl⟩

/-- `popMin` yields `none` exactly on the empty queue. -/
theorem popMin_none_iff (l : List PQItem) : popMin l = none ↔ l = [] := by
  cases l with
  | nil => simp [popMin]
  | cons x xs =>
      constructor
      · intro h
        rw [popMin] at h
        cases hx : popMin xs with
        | none => rw [hx] at h; simp at h
        | some pr =>
            obtain ⟨m', r'⟩ := pr
            rw [hx] at h
            dsimp only at h
            split_ifs at h
      · intro h; simp at h

/-- The popped item is a member of the queue. -/
theorem popMin_mem (l : List PQItem) (m : PQItem) (r : List PQItem)
    (h : popMin l = some (m, r)) : m ∈ l := by
  induction l generalizing m r with
  | nil => simp [popMin] at h
  | cons x xs ih =>
      rw [popMin] at h
      cases hx : popMin xs with
      | none =>
          rw [hx] at h
          simp only [Option.some.injEq, Prod.mk.injEq] at h
          simp [h.1]
      | some pr =>
          obtain ⟨m', r'⟩ := pr
          rw [hx] at h
          dsimp only at h
          split_ifs at h with hle
          · simp only [Option.some.injEq, Prod.mk.injEq] at h
            simp [h.1]
          · simp only [Option.some.injEq, Prod.mk.injEq] at h
            exact List.mem_cons_of_mem x (h.1 ▸ ih m' r' hx)

/-- Popping shrinks the queue by exactly one. -/
theorem popMin_length (l : List PQItem) (m : PQItem) (r : List PQItem)
    (h : popMin l = some (m, r)) : l.length = r.length + 1 := by
  induction l generalizing m r with
  | nil => simp [popMin] at h
  | cons x xs ih =>
      rw [popMin] at h
      cases hx : popMin xs with
      | none =>
          rw [hx] at h
          simp only [Option.some.injEq, Prod.mk.injEq] at h
          have : xs = [] := (popMin_none_iff xs).mp hx
          simp [← h.2, this]
      | some pr =>
          obtain ⟨m', r'⟩ := pr
          rw [hx] at h
          dsimp only at h
          split_ifs at h with hle
          · simp only [Option.some.injEq, Prod.mk.injEq] at h
            simp [← h.2]
          · simp only [Option.some.injEq, Prod.mk.injEq] at h
            have := ih m' r' hx
            simp [← h.2, this]

/-- Every item remaining after a pop was in the original queue. -/
theorem popMin_rest_subset (l : List PQItem) (m : PQItem) (r : List PQItem)
    (h : popMin l = some (m, r)) : ∀ i ∈ r, i ∈ l := by
  induction l generalizing m r with
  | nil => simp [popMin] at h
  | cons x xs ih =>
      rw [popMin] at h
      cases hx : popMin xs with
      | none =>
          rw [hx] at h
          simp only [Option.some.injEq, Prod.mk.injEq] at h
          intro i hi
          rw [← h.2] at hi
          simp at hi
      | some pr =>
          obtain ⟨m', r'⟩ := pr
          rw [hx] at h
          dsimp only at h
          split_ifs at h with hle
          · simp only [Option.some.injEq, Prod.mk.injEq] at h
            intro i hi
            rw [← h.2] at hi
            exact List.mem_cons_of_mem x hi
          · simp only [Option.some.injEq, Prod.mk.injEq] at h
            intro i hi
            rw [← h.2] at hi
            rcases List.mem_cons.mp hi with rfl | hi'
            · exact List.mem_cons_self _ _
            · exact List.mem_cons_of_mem x (ih m' r' hx i hi')

/-- Appending an edge that departs from the chain's endpoint extends the
chain. -/
theorem isChain_append (a b : ℕ) (ls : List Line) (l : Line)
    (hc : isChain a ls b) (hs : l.start_node = b) :
    isChain a (ls ++ [l]) l.end_node := by
  induction ls generalizing a with
  | nil =>
      have : a = b := hc
      exact ⟨by rw [hs, this], rfl⟩
  | cons hd tl ih => exact ⟨hc.1, ih hd.end_node hc.2⟩

/-- The invariant maintained for every item of the A* queue: its back-link
path is a filtered chain from the start node to the item's node, `g` is the
accumulated path length, `f = g + h`, and every non-initial item respects the
cutoff. -/
def ItemOK (start endId : ℕ) (linefilter : Line → Bool) (maxlen : ℚ)
    (heur : ℕ → ℕ → ℚ) (item : PQItem) : Prop :=
  isChain start item.path item.node ∧
    (∀ l ∈ item.path, linefilter l = true) ∧
    item.gval = path_length item.path ∧
    item.f = item.gval + heur item.node endId ∧
    (item.path ≠ [] → item.f ≤ maxlen)

/-- `path_length` distributes over snoc. -/
theorem path_length_append (ls : List Line) (l : Line) :
    path_length (ls ++ [l]) = path_length ls + l.length := by
  simp [path_length]

/-- Expansion preserves the queue invariant: every generated successor again
satisfies `ItemOK`, and in particular respects the `maxlen` cutoff. -/
theorem expand_itemOK (g : Graph) (start endId : ℕ) (linefilter : Line → Bool)
    (maxlen : ℚ) (heur : ℕ → ℕ → ℚ) (closed : List ℕ) (current : PQItem)
    (hcur : ItemOK start endId linefilter maxlen heur current) :
    ∀ item ∈ expand g endId linefilter maxlen heur closed current,
      ItemOK start endId linefilter maxlen heur item := by
  intro item hmem
  simp only [expand, List.mem_filterMap] at hmem
  obtain ⟨line, hline, hit⟩ := hmem
  have hstartn : line.start_node = current.node := by
    have := List.mem_filter.mp hline
    simpa using this.2
  split_ifs at hit with h1 h2 h3
  simp only [Option.some.injEq] at hit
  subst hit
  have hfilt : linefilter line = true := by
    simpa using h1
  refine ⟨?_, ?_, ?_, rfl, ?_⟩
  · exact isChain_append start current.node current.path line hcur.1 hstartn
  · intro l hl
    rcases List.mem_append.mp hl with hl | hl
    · exact hcur.2.1 l hl
    · simp only [List.mem_singleton] at hl
      rw [hl]; exact hfilt
  · show current.gval + line.length = path_length (current.path ++ [line])
    rw [path_length_append, hcur.2.2.1]
  · intro _
    show current.gval + line.length + heur line.end_node endId ≤ maxlen
    simpa using not_lt.mp h3

/-- Expansion only generates nodes of the graph. -/
theorem expand_node_mem (g : Graph) (endId : ℕ) (linefilter : Line → Bool)
    (maxlen : ℚ) (heur : ℕ → ℕ → ℚ) (closed : List ℕ) (current : PQItem)
    (hwf : g.WF) :
    ∀ item ∈ expand g endId linefilter maxlen heur closed current,
      item.node ∈ g.nodes := by
  intro item hmem
  simp only [expand, List.mem_filterMap] at hmem
  obtain ⟨line, hline, hit⟩ := hmem
  have hlg : line ∈ g.lines := (List.mem_filter.mp hline).1
  split_ifs at hit with h1 h2 h3
  simp only [Option.some.injEq] at hit
  subst hit
  exact (hwf.2 line hlg).2

/-- Expansion prunes every successor whose `f = g + h` exceeds `maxlen`: all
generated items satisfy the cutoff and carry the A* score shape. -/
theorem expand_cutoff (g : Graph) (endId : ℕ) (linefilter : Line → Bool)
    (maxlen : ℚ) (heur : ℕ → ℕ → ℚ) (closed : List ℕ) (current : PQItem) :
    ∀ item ∈ expand g endId linefilter maxlen heur closed current,
      item.f ≤ maxlen ∧ item.f = item.gval + heur item.node endId := by
  intro item hmem
  simp only [expand, List.mem_filterMap] at hmem
  obtain ⟨line, hline, hit⟩ := hmem
  split_ifs at hit with h1 h2 h3
  simp only [Option.some.injEq] at hit
  subst hit
  exact ⟨by simpa using not_lt.mp h3, rfl⟩

/-- If the loop returns a path, some invariant-satisfying item at the end node
carries exactly that path. -/
theorem astarLoop_ok (g : Graph) (start endId : ℕ) (linefilter : Line → Bool)
    (maxlen : ℚ) (heur : ℕ → ℕ → ℚ) :
    ∀ (fuel : ℕ) (open_set : List PQItem) (closed : List ℕ),
      (∀ i ∈ open_set, ItemOK start endId linefilter maxlen heur i) →
      ∀ p, astarLoop g endId linefilter maxlen heur fuel open_set closed = .ok p →
        ∃ item, ItemOK start endId linefilter maxlen heur item ∧
          item.node = endId ∧ item.path = p := by
  intro fuel
  induction fuel with
  | zero =>
      intro o c _ p hp
      simp [astarLoop] at hp
  | succ fuel ih =>
      intro open_set closed hinv p hp
      rw [astarLoop] at hp
      cases hpop : popMin open_set with
      | none => rw [hpop] at hp; simp at hp
      | some pr =>
          obtain ⟨current, rest⟩ := pr
          rw [hpop] at hp
          dsimp only at hp
          by_cases hgoal : current.node = endId
          · rw [if_pos hgoal] at hp
            simp only [AStarResult.ok.injEq] at hp
            exact ⟨current, hinv current (popMin_mem _ _ _ hpop), hgoal, hp⟩
          · rw [if_neg hgoal] at hp
            by_cases hcl : current.node ∈ closed
            · rw [if_pos hcl] at hp
              exact ih rest closed
                (fun i hi => hinv i (popMin_rest_subset _ _ _ hpop i hi)) p hp
            · rw [if_neg hcl] at hp
              refine ih _ _ ?_ p hp
              intro i hi
              rcases List.mem_append.mp hi with hi | hi
              · exact hinv i (popMin_rest_subset _ _ _ hpop i hi)
              · exact expand_itemOK g start endId linefilter maxlen heur closed current
                  (hinv current (popMin_mem _ _ _ hpop)) i hi

/-- Removing a fresh element from the closed set's complement removes exactly
its weight from the filtered weight sum. -/
theorem filteredWeightSum (w : ℕ → ℕ) :
    ∀ (ns : List ℕ) (closed : List ℕ) (v : ℕ), ns.Nodup → v ∈ ns → v ∉ closed →
      ((ns.filter (fun x => x ∉ v :: closed)).map w).sum + w v =
        ((ns.filter (fun x => x ∉ closed)).map w).sum := by
  intro ns
  induction ns with
  | nil =>
      intro _ v _ hv _
      simp at hv
  | cons a as ih =>
      intro closed v hnd hv hvc
      rcases List.mem_cons.mp hv with rfl | hv'
      · have hnotin : v ∉ as := (List.nodup_cons.mp hnd).1
        have hfeq : as.filter (fun x => decide (x ∉ v :: closed)) =
            as.filter (fun x => decide (x ∉ closed)) := by
          apply List.filter_congr
          intro x hx
          have hxv : x ≠ v := fun he => hnotin (he ▸ hx)
          simp [hxv]
        have hmem : ¬(v ∉ v :: closed) := by simp
        simp only [List.filter_cons]
        rw [if_neg (by simpa using hmem), if_pos (by simpa using hvc), hfeq]
        simp [Nat.add_comm]
      · have hnd' := (List.nodup_cons.mp hnd).2
        by_cases hac : a ∈ closed
        · have h1 : ¬(a ∉ v :: closed) := by simp [hac]
          have h2 : ¬(a ∉ closed) := by simp [hac]
          simp only [List.filter_cons]
          rw [if_neg (by simpa using h1), if_neg (by simpa using h2)]
          exact ih closed v hnd' hv' hvc
        · by_cases hav : a = v
          · exact absurd (hav ▸ hv') (List.nodup_cons.mp hnd).1
          · have h1 : a ∉ v :: closed := by simp [hav, hac]
            simp only [List.filter_cons]
            rw [if_pos (by simpa using h1), if_pos (by simpa using hac)]
            simp only [List.map_cons, List.sum_cons]
            have := ih closed v hnd' hv' hvc
            omega

/-- Closing a fresh graph node decreases the node budget by one plus its
out-degree. -/
theorem nodeBudget_cons (g : Graph) (closed : List ℕ) (v : ℕ)
    (hnd : g.nodes.Nodup) (hv : v ∈ g.nodes) (hvc : v ∉ closed) :
    nodeBudget g (v :: closed) + (1 + (g.outgoing_lines v).length) =
      nodeBudget g closed :=
  filteredWeightSum (fun x => 1 + (g.outgoing_lines x).length) g.nodes closed v hnd hv hvc

/-- The loop measure: queue size plus the budget of the not-yet-closed nodes. -/
def loopMeasure (g : Graph) (open_set : List PQItem) (closed : List ℕ) : ℕ :=
  open_set.length + nodeBudget g closed

/-- On a well-formed graph, the loop never exhausts a fuel exceeding the loop
measure: termination is by queue emptiness or goal, never by the fuel
artifact. -/
theorem astarLoop_no_outOfFuel (g : Graph) (endId : ℕ) (linefilter : Line → Bool)
    (maxlen : ℚ) (heur : ℕ → ℕ → ℚ) (hwf : g.WF) :
    ∀ (fuel : ℕ) (open_set : List PQItem) (closed : List ℕ),
      (∀ i ∈ open_set, i.node ∈ g.nodes) →
      loopMeasure g open_set closed < fuel →
      astarLoop g endId linefilter maxlen heur fuel open_set closed ≠ .outOfFuel := by
  intro fuel
  induction fuel with
  | zero =>
      intro o c _ hm
      exact absurd hm (Nat.not_lt_zero _)
  | succ fuel ih =>
      intro open_set closed hin hm
      rw [astarLoop]
      cases hpop : popMin open_set with
      | none => simp
      | some pr =>
          obtain ⟨current, rest⟩ := pr
          dsimp only
          have hlen : open_set.length = rest.length + 1 := popMin_length _ _ _ hpop
          by_cases hgoal : current.node = endId
          · rw [if_pos hgoal]
            simp
          · rw [if_neg hgoal]
            by_cases hcl : current.node ∈ closed
            · rw [if_pos hcl]
              apply ih rest closed
                (fun i hi => hin i (popMin_rest_subset _ _ _ hpop i hi))
              simp only [loopMeasure] at hm ⊢
              omega
            · rw [if_neg hcl]
              apply ih
              · intro i hi
                rcases List.mem_append.mp hi with hi | hi
                · exact hin i (popMin_rest_subset _ _ _ hpop i hi)
                · exact expand_node_mem g endId linefilter maxlen heur closed current
                    hwf i hi
              · have hnmem : current.node ∈ g.nodes :=
                  hin current (popMin_mem _ _ _ hpop)
                have hbudget := nodeBudget_cons g closed current.node hwf.1 hnmem hcl
                have hexp : (expand g endId linefilter maxlen heur closed current).length ≤
                    (g.outgoing_lines current.node).length :=
                  List.length_filterMap_le _ _
                simp only [loopMeasure, List.length_append] at hm ⊢
                omega

/-- **C7** — The A* search: (i) returns the empty path when start equals end;
(ii) never terminates through the fuel artifact on a well-formed graph — it
either returns a path or raises `LRPathNotFoundError`, the latter exactly
when the queue empties; (iii) any returned path is a directed chain from the
start node to the end node whose every line passes the filter, and a
non-empty returned path has length at most `maxlen`; (iv) expansion prunes
every successor whose `f = g + h` would exceed `maxlen`, and every enqueued
successor's score satisfies `f = g + h`. -/
theorem C7_shortest_path_spec (g : Graph) (start endId : ℕ) (linefilter : Line → Bool)
    (maxlen : ℚ) (heur : ℕ → ℕ → ℚ)
    (hwf : g.WF) (hstart : start ∈ g.nodes) (hheur : ∀ a b, 0 ≤ heur a b) :
    (start = endId → shortest_path g start endId linefilter maxlen heur = .ok []) ∧
      shortest_path g start endId linefilter maxlen heur ≠ .outOfFuel ∧
      (∀ p, shortest_path g start endId linefilter maxlen heur = .ok p →
        isChain start p endId ∧ (∀ l ∈ p, linefilter l = true) ∧
        (p ≠ [] → path_length p ≤ maxlen)) ∧
      (∀ (closed : List ℕ) (current : PQItem),
        ∀ item ∈ expand g endId linefilter maxlen heur closed current,
          item.f ≤ maxlen ∧ item.f = item.gval + heur item.node endId) := by
  have hsuc : astarFuel g = (1 + nodeBudget g []) + 1 := by
    simp [astarFuel]
    ring
  refine ⟨?_, ?_, ?_,
    fun closed current => expand_cutoff g endId linefilter maxlen heur closed current⟩
  · intro heq
    rw [shortest_path, hsuc, astarLoop]
    have hpop : popMin [PQItem.initial (heur start endId) 0 start] =
        some (PQItem.initial (heur start endId) 0 start, []) := rfl
    rw [hpop]
    dsimp only
    rw [if_pos (show (PQItem.initial (heur start endId) 0 start).node = endId from heq)]
    rfl
  · rw [shortest_path]
    apply astarLoop_no_outOfFuel g endId linefilter maxlen heur hwf
    · intro i hi
      simp only [List.mem_singleton] at hi
      rw [hi]
      exact hstart
    · simp only [loopMeasure, astarFuel, List.length_singleton]
      omega
  · intro p hp
    rw [shortest_path] at hp
    have hinv : ∀ i ∈ [PQItem.initial (heur start endId) 0 start],
        ItemOK start endId linefilter maxlen heur i := by
      intro i hi
      simp only [List.mem_singleton] at hi
      subst hi
      exact ⟨rfl, by simp [PQItem.path], by simp [PQItem.path, PQItem.gval, path_length],
        by simp [PQItem.f, PQItem.gval, PQItem.node], by simp [PQItem.path]⟩
    obtain ⟨item, hok, hnode, hpath⟩ :=
      astarLoop_ok g start endId linefilter maxlen heur (astarFuel g)
        [PQItem.initial (heur start endId) 0 start] [] hinv p hp
    subst hpath
    refine ⟨hnode ▸ hok.1, hok.2.1, ?_⟩
    intro hne
    have hfle := hok.2.2.2.2 hne
    have hf := hok.2.2.2.1
    have hg := hok.2.2.1
    have hh := hheur item.node endId
    rw [← hg]
    linarith

/-- The single five-meter edge of the witness graph. -/
def c7line : Line := ⟨1, 0, 1, 5, 0⟩

/-- A two-node, one-edge graph. -/
def c7graph : Graph := ⟨[0, 1], [c7line]⟩

/-- **C7 witness** — The A* specification instantiated on the concrete
two-node graph with the zero heuristic: the hypotheses hold and the search
does not exhaust its fuel. -/
theorem C7_witness :
    (c7graph.WF ∧ 0 ∈ c7graph.nodes ∧ ∀ a b : ℕ, 0 ≤ (fun _ _ : ℕ => (0 : ℚ)) a b) ∧
      shortest_path c7graph 0 1 (fun _ => true) 100 (fun _ _ => 0) ≠ .outOfFuel :=
  ⟨⟨⟨by decide, by intro l hl; fin_cases hl <;> exact ⟨by decide, by decide⟩⟩,
      by decide, fun a b => le_refl 0⟩,
    (C7_shortest_path_spec c7graph 0 1 (fun _ => true) 100 (fun _ _ => 0)
      ⟨by decide, by intro l hl; fin_cases hl <;> exact ⟨by decide, by decide⟩⟩
      (by decide) (fun a b => le_refl 0)).2.1⟩

end OpenLR
